import Mathlib

/-!
Verification of the `crash_vm` assembler (`src/crash_vm/asm.py`).

The Python module is shallowly embedded below.  Strings are handled as
`List Char`; the anchored regular expressions of the source are translated
into equivalent executable character-level matchers (the token languages
involved never contain the delimiter characters space, tab and `#`, so the
backtracking regex match is equivalent to taking the maximal delimiter-free
token and checking it against the token language; this equivalence is noted
at each matcher).  Fallible Python code becomes `Except Err`, where `Err`
distinguishes the module's own `CompilationError` from Python's built-in
exceptions (`ValueError` from `int()`, `KeyError` from a dict lookup,
`RuntimeError`, `TypeError`), which the source treats differently
(`parse` and `parse_address` catch `CompilationError` only).

`_types.py` (the `NativeNumber` and `Address` bounded-word wrappers) and
`cpu.py` (the instruction catalog) are not part of the sources under
verification; following the specification they are treated as external
inputs: the representable ranges and the opcode/arity catalog are fields of
a configuration record `Cfg`.
-/

namespace CrashVM

/-- `CompilationError` versus Python's built-in exceptions.  `compilation m`
is the module's own error type with its message; the other constructors
stand for built-in exceptions that the module never catches. -/
inductive Err where
  | compilation (msg : String)
  | valueError
  | keyError
  | runtimeError
  | typeError
deriving DecidableEq, Repr

/-- Modelled from the spec: the machine word width and the instruction set
live in `_types.py` and `cpu.py`, which are external collaborators of the
assembler core.  `numLo ≤ v ≤ numHi` is "representable as a NativeNumber",
`addrLo ≤ v ≤ addrHi` is "representable as an Address", and `catalog` maps
each opcode name (in `Instructions` declaration order, which fixes the
alternation order of `INSTRUCTION_NAME_PATTERN`) to its argument count. -/
structure Cfg where
  numLo : Int
  numHi : Int
  addrLo : Int
  addrHi : Int
  catalog : List (String × Nat)

/-! ### Character classes of the regex patterns -/

/-- `SPACER_CHARACTER_PATTERN`, the class `[ \t]`. -/
def isSpacer (c : Char) : Bool := c = ' ' || c = '\t'

/-- The class `[0-9]` (`\d` in the patterns). -/
def isDigit10 (c : Char) : Bool := '0' ≤ c && c ≤ '9'

/-- The class `[0-9a-fA-F]` of `HEX_NUMBER_PATTERN`. -/
def isHexDig (c : Char) : Bool :=
  isDigit10 c || ('a' ≤ c && c ≤ 'f') || ('A' ≤ c && c ≤ 'F')

/-- `IDENTIFIER_FIRST_CHARACTER_PATTERN`, the class `[a-zA-Z_]`. -/
def isIdentFirst (c : Char) : Bool :=
  ('a' ≤ c && c ≤ 'z') || ('A' ≤ c && c ≤ 'Z') || c = '_'

/-- `IDENTIFIER_CHARACTER_PATTERN`, the class `[a-zA-Z_0-9]`. -/
def isIdentChar (c : Char) : Bool := isIdentFirst c || isDigit10 c

/-! ### Numeric literals

`DEC_NUMBER_PATTERN  = [\-\+]?(?:\d+)`
`HEX_NUMBER_PATTERN  = [\-\+]?(?:0x[0-9a-fA-F]+)`
`NUMBER_PATTERN      = (?:DEC|HEX)` -/

/-- Drop the optional leading sign `[\-\+]?`. -/
def stripSign : List Char → List Char
  | c :: rest => if c = '-' || c = '+' then rest else c :: rest
  | [] => []

/-- Sign factor contributed by an optional leading `-`. -/
def signVal : List Char → Int
  | '-' :: _ => -1
  | _ => 1

/-- Value of a string of decimal digits. -/
def decVal (l : List Char) : Int :=
  l.foldl (fun acc c => 10 * acc + ((c.toNat - '0'.toNat : Nat) : Int)) 0

/-- Value of one hexadecimal digit. -/
def hexDigVal (c : Char) : Int :=
  if isDigit10 c then ((c.toNat - '0'.toNat : Nat) : Int)
  else if 'a' ≤ c && c ≤ 'f' then ((c.toNat - 'a'.toNat + 10 : Nat) : Int)
  else ((c.toNat - 'A'.toNat + 10 : Nat) : Int)

/-- Value of a string of hexadecimal digits. -/
def hexVal (l : List Char) : Int :=
  l.foldl (fun acc c => 16 * acc + hexDigVal c) 0

/-- Whole-string match of `DEC_NUMBER_PATTERN`. -/
def isFullDec (l : List Char) : Bool :=
  !(stripSign l).isEmpty && (stripSign l).all isDigit10

/-- Whole-string match of `HEX_NUMBER_PATTERN`. -/
def isFullHex (l : List Char) : Bool :=
  match stripSign l with
  | '0' :: 'x' :: ds => !ds.isEmpty && ds.all isHexDig
  | _ => false

/-- Whole-string match of `NUMBER_PATTERN` (= `ADDRESS_LITERAL_PATTERN`). -/
def isFullNum (l : List Char) : Bool := isFullDec l || isFullHex l

/-- `re.match(DEC_NUMBER_PATTERN, s)` is a prefix match: it succeeds exactly
when an optional sign is followed by at least one digit. -/
def decPrefixMatch (l : List Char) : Bool :=
  match stripSign l with
  | c :: _ => isDigit10 c
  | [] => false

/-- `re.match(HEX_NUMBER_PATTERN, s)`: an optional sign followed by `0x` and
at least one hex digit. -/
def hexPrefixMatch (l : List Char) : Bool :=
  match stripSign l with
  | '0' :: 'x' :: c :: _ => isHexDig c
  | _ => false

/-- `re.match(NUMBER_PATTERN, s)`: the alternation `DEC|HEX` matches some
prefix of `s`. -/
def numPrefixMatch (l : List Char) : Bool := decPrefixMatch l || hexPrefixMatch l

/-- Python `int(s)`: an optional sign followed by one or more decimal
digits; anything else raises `ValueError` (`none` here).  (`int` also
tolerates surrounding whitespace and underscores between digits; no input
arising in this module exercises that, so it is not modelled.) -/
def pyIntDec? (l : List Char) : Option Int :=
  if !(stripSign l).isEmpty && (stripSign l).all isDigit10 then
    some (signVal l * decVal (stripSign l))
  else none

/-- Python `int(s, 16)`: an optional sign, an optional `0x`/`0X` prefix and
one or more hex digits; anything else raises `ValueError`. -/
def pyIntHex? (l : List Char) : Option Int :=
  let t := stripSign l
  let t2 := match t with
    | '0' :: 'x' :: r => r
    | '0' :: 'X' :: r => r
    | r => r
  if !t2.isEmpty && t2.all isHexDig then some (signVal l * hexVal t2)
  else none

/-! ### Value construction (`int_to_native_number`, `int_to_address`,
`parse_number`, `parse_address_literal`) -/

/-- Representability test for `NativeNumber` (see `Cfg`). -/
def numInRange (cfg : Cfg) (v : Int) : Bool := cfg.numLo ≤ v && v ≤ cfg.numHi

/-- Representability test for `Address` (see `Cfg`). -/
def addrInRange (cfg : Cfg) (v : Int) : Bool := cfg.addrLo ≤ v && v ≤ cfg.addrHi

/-- `int_to_native_number`: `NativeNumber(value)` represents `value` exactly
iff it lies in the native range; otherwise `CompilationError` ("out of
range"). -/
def int_to_native_number (cfg : Cfg) (v : Int) : Except Err Int :=
  if numInRange cfg v then .ok v
  else .error (.compilation s!"Value {v} is out of range")

/-- `int_to_address`: same contract against the address range. -/
def int_to_address (cfg : Cfg) (v : Int) : Except Err Int :=
  if addrInRange cfg v then .ok v
  else .error (.compilation s!"Value {v} is out of range")

/-- `parse_number`: try the hex pattern first (a prefix match), then the
number pattern, converting with `int(s, 16)` resp. `int(s)`; a prefix match
with trailing garbage makes `int` raise `ValueError`. -/
def parse_number (cfg : Cfg) (s : String) : Except Err Int :=
  if hexPrefixMatch s.data then
    match pyIntHex? s.data with
    | some v => int_to_native_number cfg v
    | none => .error .valueError
  else if numPrefixMatch s.data then
    match pyIntDec? s.data with
    | some v => int_to_native_number cfg v
    | none => .error .valueError
  else .error (.compilation s!"Invalid number value {s}")

/-- `parse_address_literal`: identical to `parse_number` but validated
against the address range. -/
def parse_address_literal (cfg : Cfg) (s : String) : Except Err Int :=
  if hexPrefixMatch s.data then
    match pyIntHex? s.data with
    | some v => int_to_address cfg v
    | none => .error .valueError
  else if numPrefixMatch s.data then
    match pyIntDec? s.data with
    | some v => int_to_address cfg v
    | none => .error .valueError
  else .error (.compilation s!"Invalid address value {s}")

/-! ### Labels -/

/-- Whole-string match of `LABEL_PATTERN` after its first character:
identifier characters followed by a final `:`. -/
def identThenColon : List Char → Bool
  | [] => false
  | c :: rest => if c = ':' then rest.isEmpty else isIdentChar c && identThenColon rest

/-- Whole-string match of `LABEL_PATTERN = [a-zA-Z_][a-zA-Z_0-9]*:` (this is
the anchored `^LABEL_PATTERN$` check of `Label.__init__`). -/
def isFullLabel (l : List Char) : Bool :=
  match l with
  | c :: rest => isIdentFirst c && identThenColon rest
  | [] => false

/-- Prefix-match helper: identifier characters, then a `:` anywhere. -/
def identThenColonPre : List Char → Bool
  | [] => false
  | c :: rest => c = ':' || (isIdentChar c && identThenColonPre rest)

/-- `re.match(LABEL_PATTERN, s)`: a prefix of `s` is an identifier followed
by `:`. -/
def labelPrefixMatch (l : List Char) : Bool :=
  match l with
  | c :: rest => isIdentFirst c && identThenColonPre rest
  | [] => false

/-- `Label(string_value)`: the constructor re-checks the anchored label
pattern and raises `CompilationError('Invalid label')` on failure.  A label
is stored as the raw matched token, trailing colon included. -/
def labelMk (s : String) : Except Err String :=
  if isFullLabel s.data then .ok s else .error (.compilation "Invalid label")

/-! ### Words

One unit of the compiler's output (or, pre-resolution, a `Label`
placeholder).  `instr` is an `Instructions` member, `num` a `NativeNumber`,
`addr` an `Address`. -/

inductive Word where
  | instr (name : String)
  | num (v : Int)
  | addr (v : Int)
  | lbl (s : String)
deriving DecidableEq, Repr

/-- Python-dict lookup over bindings kept in insertion order: a later
binding of the same key overwrites an earlier one, so the lookup returns
the last matching binding. -/
def dictGet? : List (String × Int) → String → Option Int
  | [], _ => none
  | (k, v) :: rest, key =>
    match dictGet? rest key with
    | some v2 => some v2
    | none => if k = key then some v else none

/-- `parse_address(address_str, labels)`: first try the address literal
(catching `CompilationError` only — a `ValueError` propagates); on failure
try the label pattern, returning an unresolved `Label` when no table is
supplied, else looking the token up (a `KeyError` is turned into
`CompilationError('Invalid label …')`); otherwise fail. -/
def parse_address (cfg : Cfg) (s : String) (labels : Option (List (String × Int))) :
    Except Err Word :=
  match parse_address_literal cfg s with
  | .ok a => .ok (.addr a)
  | .error (.compilation _) =>
    if labelPrefixMatch s.data then
      match labels with
      | none =>
        match labelMk s with
        | .ok lb => .ok (.lbl lb)
        | .error e => .error e
      | some t =>
        match dictGet? t s with
        | some a => .ok (.addr a)
        | none => .error (.compilation s!"Invalid label {s}")
    else .error (.compilation s!"Invalid address value {s}")
  | .error e => .error e

/-! ### The line model -/

/-- One parsed source line.  Every variant carries the address stamped on it
at construction time.  (`_types.Address` is not under verification; the
parser's running counter is an exact integer, per the spec's invariant that
line addresses are exact cumulative sums.) -/
inductive Line where
  | empty (address : Int)
  | offset (address : Int) (offset : Int)
  | label (address : Int) (label : String)
  | value (address : Int) (value : Int)
  | instruction (address : Int) (instr : String) (args : List Word)
deriving DecidableEq, Repr

/-- The address a line was constructed with. -/
def Line.address : Line → Int
  | .empty a => a
  | .offset a _ => a
  | .label a _ => a
  | .value a _ => a
  | .instruction a _ _ => a

/-- `produced_bytes_padded_num`: the number of output words the line
occupies. -/
def paddedCount : Line → Int
  | .empty _ => 0
  | .offset a o => o - a
  | .label _ _ => 0
  | .value _ _ => 1
  | .instruction _ _ args => 1 + (args.length : Int)

/-- `produced_bytes`: the words a line directly produces (before padding). -/
def producedWords : Line → List Word
  | .empty _ => []
  | .offset _ _ => []
  | .label _ _ => []
  | .value _ v => [.num v]
  | .instruction _ i args => .instr i :: args

/-- The padded word list: produced words followed by `NativeNumber(0)`
padding up to `produced_bytes_padded_num`. -/
def paddedWords (l : Line) : List Word :=
  producedWords l ++
    List.replicate (paddedCount l - (producedWords l).length).toNat (.num 0)

/-- `produce_bytes_padded`: raises `RuntimeError` when a line produced more
words than its declared padded count, else pads with zeros. -/
def produce_bytes_padded (l : Line) : Except Err (List Word) :=
  if ((producedWords l).length : Int) > paddedCount l then .error .runtimeError
  else .ok (paddedWords l)

/-! ### Line matchers

Each `Pattern` is `INDENTATION_PATTERN` + body + `LINE_END_PATTERN`, i.e.
`^[ \t]*` … `[ \t]*(?:#.*)?$`, applied with `re.match`.  A source line holds
no newline (the input is split on them), so `$` is plain end-of-string.
The token languages (`NUMBER_PATTERN`, `LABEL_PATTERN`, the instruction
names) contain no space, tab or `#`, and no delimiter can follow a proper
prefix of a token, so the backtracking regex match of `(TOKEN)` followed by
`LINE_END_PATTERN` succeeds exactly when the maximal delimiter-free run is
a whole-token match and the rest of the line is spacers plus an optional
`#` comment. -/

/-- Strip leading `[ \t]*` (`INDENTATION_PATTERN`). -/
def dropSpacers (l : List Char) : List Char := l.dropWhile isSpacer

/-- `LINE_END_PATTERN = [ \t]*(?:#.*)?$`. -/
def isLineEnd (l : List Char) : Bool :=
  match dropSpacers l with
  | [] => true
  | c :: _ => c = '#'

/-- The maximal run of characters that can belong to a token (neither a
spacer nor the comment character). -/
def tokenTake (l : List Char) : List Char :=
  l.takeWhile (fun c => !isSpacer c && c != '#')

/-- `EmptyLine.Pattern`: only indentation and a line end. -/
def emptyMatch (_cfg : Cfg) (s : String) : Option (List String) :=
  if isLineEnd s.data then some [] else none

/-- `OffsetLine.Pattern`: indentation, the keyword `Offset`, one or more
spacers, one captured address literal, line end. -/
def offsetMatch (_cfg : Cfg) (s : String) : Option (List String) :=
  let t := dropSpacers s.data
  if ("Offset".data).isPrefixOf t then
    match t.drop 6 with
    | c :: r =>
      if isSpacer c then
        let r2 := dropSpacers (c :: r)
        let tok := tokenTake r2
        if !tok.isEmpty && isFullNum tok && isLineEnd (r2.drop tok.length) then
          some [String.mk tok]
        else none
      else none
    | [] => none
  else none

/-- `ValueLine.Pattern`: indentation, one captured number, line end. -/
def valueMatch (_cfg : Cfg) (s : String) : Option (List String) :=
  let t := dropSpacers s.data
  let tok := tokenTake t
  if !tok.isEmpty && isFullNum tok && isLineEnd (t.drop tok.length) then
    some [String.mk tok]
  else none

/-- `LabelLine.Pattern`: indentation, one captured label token, line end. -/
def labelMatch (_cfg : Cfg) (s : String) : Option (List String) :=
  let t := dropSpacers s.data
  let tok := tokenTake t
  if !tok.isEmpty && isFullLabel tok && isLineEnd (t.drop tok.length) then
    some [String.mk tok]
  else none

/-- Whole-token match of `ADDRESS_PATTERN = (?:NUMBER|LABEL)`. -/
def isFullAddr (l : List Char) : Bool := isFullNum l || isFullLabel l

/-- The argument region `((?: +ADDRESS_PATTERN)*)` followed by
`LINE_END_PATTERN`, returning the captured region.  The star is greedy; a
repetition needs at least one plain space (not tab) and then a whole
address token, so each recursive step consumes at least two characters and
a fuel of `length` suffices.  When a repetition is impossible (or, for
faithfulness to backtracking, when the continuation fails) the star stops
and the remainder must be a line end. -/
def argsThenEndF : Nat → List Char → Option (List Char)
  | 0, s => if isLineEnd s then some [] else none
  | fuel + 1, s =>
    let sp := s.takeWhile (fun c => c = ' ')
    if sp.isEmpty then (if isLineEnd s then some [] else none)
    else
      let r := s.drop sp.length
      let tok := tokenTake r
      if !tok.isEmpty && isFullAddr tok then
        match argsThenEndF fuel (r.drop tok.length) with
        | some more => some (sp ++ tok ++ more)
        | none => if isLineEnd s then some [] else none
      else if isLineEnd s then some [] else none

/-- See `argsThenEndF`. -/
def argsThenEnd (s : List Char) : Option (List Char) := argsThenEndF s.length s

/-- The alternation `INSTRUCTION_NAME_PATTERN` tried in catalog order: the
first name that is a prefix of the line at this position and whose
continuation (arguments and line end) matches wins. -/
def findInstr (cat : List (String × Nat)) (t : List Char) : Option (List String) :=
  match cat with
  | [] => none
  | (name, _) :: rest =>
    if (name.data).isPrefixOf t then
      match argsThenEnd (t.drop name.data.length) with
      | some args => some [name, String.mk args]
      | none => findInstr rest t
    else findInstr rest t

/-- `InstructionLine.Pattern`: indentation, a captured instruction name, the
captured argument region, line end. -/
def instrMatch (cfg : Cfg) (s : String) : Option (List String) :=
  findInstr cfg.catalog (dropSpacers s.data)

/-! ### Line constructors -/

/-- `EmptyLine(address)`. -/
def emptyConstruct (_cfg : Cfg) (a : Int) (_g : List String) : Except Err Line :=
  .ok (.empty a)

/-- `OffsetLine.__init__`: parse the captured offset literal and reject a
target below the current address (note the source's message typo
`Inavalid`). -/
def offsetInit (cfg : Cfg) (a : Int) (offStr : String) : Except Err Line :=
  match parse_address_literal cfg offStr with
  | .error e => .error e
  | .ok off =>
    if off < a then .error (.compilation s!"Inavalid offset {off} at {a}")
    else .ok (.offset a off)

/-- Dispatch of `OffsetLine(address, *groups)`. -/
def offsetConstruct (cfg : Cfg) (a : Int) (g : List String) : Except Err Line :=
  match g with
  | o :: _ => offsetInit cfg a o
  | [] => .error .typeError

/-- `ValueLine.__init__`: parse the captured number. -/
def valueConstruct (cfg : Cfg) (a : Int) (g : List String) : Except Err Line :=
  match g with
  | v :: _ =>
    match parse_number cfg v with
    | .error e => .error e
    | .ok n => .ok (.value a n)
  | [] => .error .typeError

/-- `LabelLine.__init__`: wrap the captured token in `Label` (which
re-validates it). -/
def labelConstruct (_cfg : Cfg) (a : Int) (g : List String) : Except Err Line :=
  match g with
  | s :: _ =>
    match labelMk s with
    | .ok lb => .ok (.label a lb)
    | .error e => .error e
  | [] => .error .typeError

/-- Python `str.strip()` over the whitespace actually reachable here. -/
def pyStrip (s : String) : String :=
  String.mk (((s.data.dropWhile isSpacer).reverse.dropWhile isSpacer).reverse)

/-- Python `str.split(sep)` for a single-character separator: empty pieces
between consecutive separators are kept. -/
def splitOnChar (c : Char) (l : List Char) : List (List Char) :=
  match l with
  | [] => [[]]
  | x :: rest =>
    let r := splitOnChar c rest
    if x = c then [] :: r
    else
      match r with
      | h :: t => (x :: h) :: t
      | [] => [[x]]

/-- `tuple(map(parse_address, args))`: arguments are parsed left to right
with no label table, the first error propagating. -/
def parseArgs (cfg : Cfg) : List String → Except Err (List Word)
  | [] => .ok []
  | a :: rest =>
    match parse_address cfg a none with
    | .error e => .error e
    | .ok w =>
      match parseArgs cfg rest with
      | .error e => .error e
      | .ok ws => .ok (w :: ws)

/-- `InstructionLine.__init__`: split the captured argument region on single
spaces (after stripping), look the name up in the catalog, check the arity,
then parse each argument. -/
def instrInit (cfg : Cfg) (a : Int) (name argsStr : String) : Except Err Line :=
  let args := if argsStr = "" then []
              else (splitOnChar ' ' (pyStrip argsStr).data).map String.mk
  match cfg.catalog.find? (fun p => p.1 = name) with
  | none => .error (.compilation s!"Invalid instruction {name}")
  | some (_, arity) =>
    if arity ≠ args.length then
      .error (.compilation
        s!"Instruction {name} takes {arity} arguments, {args.length} given")
    else
      match parseArgs cfg args with
      | .error e => .error e
      | .ok ws => .ok (.instruction a name ws)

/-- Dispatch of `InstructionLine(address, *groups)`. -/
def instrConstruct (cfg : Cfg) (a : Int) (g : List String) : Except Err Line :=
  match g with
  | name :: argsStr :: _ => instrInit cfg a name argsStr
  | _ => .error .typeError

/-! ### The parser -/

/-- One entry of the source's `classes` list: the compiled `Pattern` and the
constructor called with the match's groups. -/
structure LineClass where
  matchLine : Cfg → String → Option (List String)
  construct : Cfg → Int → List String → Except Err Line

/-- `EmptyLine` as a `LineClass`. -/
def emptyC : LineClass := ⟨emptyMatch, emptyConstruct⟩

/-- `OffsetLine` as a `LineClass`. -/
def offsetC : LineClass := ⟨offsetMatch, offsetConstruct⟩

/-- `ValueLine` as a `LineClass`. -/
def valueC : LineClass := ⟨valueMatch, valueConstruct⟩

/-- `InstructionLine` as a `LineClass`. -/
def instrC : LineClass := ⟨instrMatch, instrConstruct⟩

/-- `LabelLine` as a `LineClass`. -/
def labelC : LineClass := ⟨labelMatch, labelConstruct⟩

/-- `classes = [EmptyLine, OffsetLine, ValueLine, InstructionLine,
LabelLine]` — the fixed priority order of the grammar. -/
def lineClasses : List LineClass := [emptyC, offsetC, valueC, instrC, labelC]

/-- `next(filter(lambda p: p[1], map(lambda c: (c, re.match(c.Pattern,
line)), classes)))`: the first class whose pattern matches, with its
groups. -/
def classifyLine (cfg : Cfg) (s : String) : Option (LineClass × List String) :=
  lineClasses.findSome? (fun c => (c.matchLine cfg s).map (fun g => (c, g)))

/-- Classify one line and run the matching constructor;
`CompilationError('Invalid syntax')` when nothing matches. -/
def constructLine (cfg : Cfg) (a : Int) (s : String) : Except Err Line :=
  match classifyLine cfg s with
  | none => .error (.compilation "Invalid syntax")
  | some (c, g) => c.construct cfg a g

/-- The `except CompilationError` handler of `parse`: prefix the message
with the 1-based line number; built-in exceptions are not caught. -/
def wrapLine (n : Nat) : Err → Err
  | .compilation m => .compilation s!"Line {n}: {m}"
  | e => e

/-- The loop of `parse`: `n` is the 1-based number of the next line, `a`
the running address counter, advanced by each line's padded word count. -/
def parseFrom (cfg : Cfg) : Nat → Int → List String → Except Err (List Line)
  | _, _, [] => .ok []
  | n, a, s :: rest =>
    match constructLine cfg a s with
    | .error e => .error (wrapLine n e)
    | .ok line =>
      match parseFrom cfg (n + 1) (a + paddedCount line) rest with
      | .error e => .error e
      | .ok ls => .ok (line :: ls)

/-- `parse` on an already-split list of lines (the generator is consumed
eagerly by `compile`, so it is modelled as returning the whole list). -/
def parseLines (cfg : Cfg) (ls : List String) : Except Err (List Line) :=
  parseFrom cfg 1 0 ls

/-- `parse` on a source string: `lines.split('\n')` first. -/
def parse (cfg : Cfg) (src : String) : Except Err (List Line) :=
  parseLines cfg ((splitOnChar '\n' src.data).map String.mk)

/-! ### The compiler (`compile`, final version in the source) -/

/-- Pass 1: `{line.label: line.address for line in parsed if
isinstance(line, LabelLine)}` — no duplicate check; a later binding
overwrites an earlier one (see `dictGet?`). -/
def labelTable (parsed : List Line) : List (String × Int) :=
  parsed.filterMap (fun l =>
    match l with
    | .label a s => some (s, a)
    | _ => none)

/-- `resolve(byte)`: `labels[byte] if isinstance(byte, Label) else byte` —
the bare dict lookup raises `KeyError` on a missing label. -/
def resolveWord (t : List (String × Int)) : Word → Except Err Word
  | .lbl s =>
    match dictGet? t s with
    | some a => .ok (.addr a)
    | none => .error .keyError
  | w => .ok w

/-- Resolve a word list left to right, the first error propagating. -/
def resolveWords (t : List (String × Int)) : List Word → Except Err (List Word)
  | [] => .ok []
  | w :: ws =>
    match resolveWord t w with
    | .error e => .error e
    | .ok r =>
      match resolveWords t ws with
      | .error e => .error e
      | .ok rs => .ok (r :: rs)

/-- Pass 2: concatenate, in line order, each line's padded words after
resolution. -/
def emitLines (t : List (String × Int)) : List Line → Except Err (List Word)
  | [] => .ok []
  | l :: rest =>
    match produce_bytes_padded l with
    | .error e => .error e
    | .ok ws =>
      match resolveWords t ws with
      | .error e => .error e
      | .ok rs =>
        match emitLines t rest with
        | .error e => .error e
        | .ok more => .ok (rs ++ more)

/-- Both passes over an already-parsed program. -/
def compileParsed (parsed : List Line) : Except Err (List Word) :=
  emitLines (labelTable parsed) parsed

/-- `compile(lines)`: parse eagerly, then the two passes. -/
def compile (cfg : Cfg) (src : String) : Except Err (List Word) :=
  match parse cfg src with
  | .error e => .error e
  | .ok parsed => compileParsed parsed

/-- Modelled from the spec: a concrete external configuration for the
scenario claims — a 16-bit signed native word, a 16-bit unsigned address
space, and a catalog in which `ADD` takes two address arguments. -/
def cfgStd : Cfg := ⟨-32768, 32767, 0, 65535, [("ADD", 2)]⟩

/-! ### Specification-side predicates -/

/-- A line never produces more words than its declared padded count (the
internal-consistency property `produce_bytes_padded` checks at run time). -/
def lineWF (l : Line) : Prop :=
  ((producedWords l).length : Int) ≤ paddedCount l

/-- Every line of the list is stamped with the running address, which
advances by the padded word count. -/
def addrChain : Int → List Line → Prop
  | _, [] => True
  | a, l :: rest => l.address = a ∧ addrChain (a + paddedCount l) rest

/-- Some instruction argument is an unresolved label for which no
`LabelLine` with the same identifier exists in the program. -/
def hasUndefinedRef (parsed : List Line) : Prop :=
  ∃ l ∈ parsed, ∃ a i args, l = Line.instruction a i args ∧
    ∃ s, Word.lbl s ∈ args ∧ ∀ a2, Line.label a2 s ∉ parsed

/-- The line carries an unresolved label argument. -/
def hasLabelRefArg (l : Line) : Prop :=
  ∃ a i args, l = Line.instruction a i args ∧ ∃ s, Word.lbl s ∈ args

/-- The claim's notion of a syntactically valid (optionally signed) decimal
or `0x`-hexadecimal literal, together with its integer value: the whole
string matches `HEX_NUMBER_PATTERN` and denotes its `int(s, 16)` value, or
the whole string matches `DEC_NUMBER_PATTERN` and denotes its `int(s)`
value. -/
def litValue? (s : String) : Option Int :=
  if isFullHex s.data then pyIntHex? s.data
  else if isFullDec s.data then pyIntDec? s.data
  else none

/-! ### Lemmas about classification -/

/-- `classifyLine` written out: the five patterns are tried in the fixed
order empty, offset, value, instruction, label. -/
theorem classifyLine_eq (cfg : Cfg) (s : String) :
    classifyLine cfg s =
      match emptyMatch cfg s with
      | some g => some (emptyC, g)
      | none =>
        match offsetMatch cfg s with
        | some g => some (offsetC, g)
        | none =>
          match valueMatch cfg s with
          | some g => some (valueC, g)
          | none =>
            match instrMatch cfg s with
            | some g => some (instrC, g)
            | none =>
              match labelMatch cfg s with
              | some g => some (labelC, g)
              | none => none := by
  simp only [classifyLine, lineClasses, List.findSome?, emptyC, offsetC, valueC,
    instrC, labelC]
  cases emptyMatch cfg s <;> cases offsetMatch cfg s <;> cases valueMatch cfg s <;>
    cases instrMatch cfg s <;> cases labelMatch cfg s <;> rfl

theorem shape_empty {cfg : Cfg} {a : Int} {g : List String} {l : Line}
    (h : emptyConstruct cfg a g = .ok l) : l.address = a ∧ lineWF l := by
  simp only [emptyConstruct, Except.ok.injEq] at h
  subst h
  exact ⟨rfl, by simp [lineWF, producedWords, paddedCount]⟩

theorem shape_offset {cfg : Cfg} {a : Int} {g : List String} {l : Line}
    (h : offsetConstruct cfg a g = .ok l) : l.address = a ∧ lineWF l := by
  cases g with
  | nil => simp [offsetConstruct] at h
  | cons o g' =>
    cases hpl : parse_address_literal cfg o with
    | error e => simp [offsetConstruct, offsetInit, hpl] at h
    | ok off =>
      by_cases hlt : off < a
      · simp [offsetConstruct, offsetInit, hpl, hlt] at h
      · simp only [offsetConstruct, offsetInit, hpl, if_neg hlt, Except.ok.injEq] at h
        subst h
        refine ⟨rfl, ?_⟩
        simp only [lineWF, producedWords, paddedCount, List.length_nil, Nat.cast_zero]
        omega

theorem shape_value {cfg : Cfg} {a : Int} {g : List String} {l : Line}
    (h : valueConstruct cfg a g = .ok l) : l.address = a ∧ lineWF l := by
  cases g with
  | nil => simp [valueConstruct] at h
  | cons v g' =>
    cases hn : parse_number cfg v with
    | error e => simp [valueConstruct, hn] at h
    | ok n =>
      simp only [valueConstruct, hn, Except.ok.injEq] at h
      subst h
      exact ⟨rfl, by simp [lineWF, producedWords, paddedCount]⟩

theorem shape_label {cfg : Cfg} {a : Int} {g : List String} {l : Line}
    (h : labelConstruct cfg a g = .ok l) : l.address = a ∧ lineWF l := by
  cases g with
  | nil => simp [labelConstruct] at h
  | cons s g' =>
    cases hm : labelMk s with
    | error e => simp [labelConstruct, hm] at h
    | ok lb =>
      simp only [labelConstruct, hm, Except.ok.injEq] at h
      subst h
      exact ⟨rfl, by simp [lineWF, producedWords, paddedCount]⟩

theorem shape_instr {cfg : Cfg} {a : Int} {g : List String} {l : Line}
    (h : instrConstruct cfg a g = .ok l) : l.address = a ∧ lineWF l := by
  cases g with
  | nil => simp [instrConstruct] at h
  | cons name g1 =>
    cases g1 with
    | nil => simp [instrConstruct] at h
    | cons argsStr g' =>
      simp only [instrConstruct] at h
      unfold instrInit at h
      set args : List String := (if argsStr = "" then []
        else (splitOnChar ' ' (pyStrip argsStr).data).map String.mk) with hargs
      cases hf : cfg.catalog.find? (fun p => p.1 = name) with
      | none => simp only [hf] at h; exact absurd h (by simp)
      | some p =>
        obtain ⟨nm, arity⟩ := p
        by_cases har : arity ≠ args.length
        · simp only [hf, if_pos har] at h; exact absurd h (by simp)
        · cases hp : parseArgs cfg args with
          | error e => simp only [hf, if_neg har, hp] at h; exact absurd h (by simp)
          | ok ws =>
            simp only [hf, if_neg har, hp, Except.ok.injEq] at h
            subst h
            refine ⟨rfl, ?_⟩
            simp only [lineWF, producedWords, paddedCount, List.length_cons]
            push_cast
            omega

/-- A successfully constructed line is stamped with the supplied address and
is internally consistent. -/
theorem constructLine_shape {cfg : Cfg} {a : Int} {s : String} {l : Line}
    (h : constructLine cfg a s = .ok l) : l.address = a ∧ lineWF l := by
  have hcl := classifyLine_eq cfg s
  unfold constructLine at h
  cases hE : emptyMatch cfg s with
  | some g =>
    simp only [hE] at hcl
    rw [hcl] at h
    exact @shape_empty cfg a g l h
  | none =>
  simp only [hE] at hcl
  cases hO : offsetMatch cfg s with
  | some g =>
    simp only [hO] at hcl
    rw [hcl] at h
    exact @shape_offset cfg a g l h
  | none =>
  simp only [hO] at hcl
  cases hV : valueMatch cfg s with
  | some g =>
    simp only [hV] at hcl
    rw [hcl] at h
    exact @shape_value cfg a g l h
  | none =>
  simp only [hV] at hcl
  cases hI : instrMatch cfg s with
  | some g =>
    simp only [hI] at hcl
    rw [hcl] at h
    exact @shape_instr cfg a g l h
  | none =>
  simp only [hI] at hcl
  cases hL : labelMatch cfg s with
  | some g =>
    simp only [hL] at hcl
    rw [hcl] at h
    exact @shape_label cfg a g l h
  | none =>
    simp only [hL] at hcl
    rw [hcl] at h
    exact absurd h (by simp)

/-- Soundness of the parsing loop: a successful parse produces the address
chain starting at the supplied counter, and only well-formed lines. -/
theorem parseFrom_ok (cfg : Cfg) : ∀ (ls : List String) (n : Nat) (a : Int)
    (lines : List Line), parseFrom cfg n a ls = .ok lines →
    addrChain a lines ∧ ∀ l ∈ lines, lineWF l := by
  intro ls
  induction ls with
  | nil =>
    intro n a lines h
    unfold parseFrom at h
    simp only [Except.ok.injEq] at h
    subst h
    exact ⟨trivial, by simp⟩
  | cons s rest ih =>
    intro n a lines h
    unfold parseFrom at h
    cases hc : constructLine cfg a s with
    | error e => simp only [hc] at h; exact absurd h (by simp)
    | ok line =>
      simp only [hc] at h
      cases hr : parseFrom cfg (n + 1) (a + paddedCount line) rest with
      | error e => simp only [hr] at h; exact absurd h (by simp)
      | ok ls2 =>
        simp only [hr, Except.ok.injEq] at h
        subst h
        obtain ⟨hca, hcw⟩ := constructLine_shape hc
        obtain ⟨h1, h2⟩ := ih (n + 1) _ _ hr
        refine ⟨⟨hca, h1⟩, ?_⟩
        intro l hl
        rcases List.mem_cons.mp hl with hl | hl
        · subst hl; exact hcw
        · exact h2 l hl

/-- The head of an address chain carries the start address. -/
theorem addrChain_head {a : Int} {l : Line} {rest : List Line}
    (h : addrChain a (l :: rest)) : l.address = a := h.1

/-- Consecutive lines of an address chain differ by the padded count. -/
theorem addrChain_get : ∀ (lines : List Line) (a : Int), addrChain a lines →
    ∀ (i : Nat) (hi : i + 1 < lines.length),
      (lines.get ⟨i + 1, hi⟩).address
        = (lines.get ⟨i, Nat.lt_of_succ_lt hi⟩).address
          + paddedCount (lines.get ⟨i, Nat.lt_of_succ_lt hi⟩) := by
  intro lines
  induction lines with
  | nil => intro a _ i hi; simp at hi
  | cons l rest ih =>
    intro a h i hi
    obtain ⟨h1, h2⟩ := h
    cases i with
    | zero =>
      cases rest with
      | nil => simp at hi
      | cons r rs =>
        obtain ⟨hr, _⟩ := h2
        simp only [List.get]
        rw [hr, h1]
    | succ j =>
      have := ih _ h2 j (by simpa using hi)
      simpa using this

/-! ### Lemmas about the resolution pass -/

/-- A dict lookup misses exactly when no binding carries the key. -/
theorem dictGet?_eq_none {t : List (String × Int)} {k : String} :
    dictGet? t k = none ↔ ∀ v, (k, v) ∉ t := by
  induction t with
  | nil => simp [dictGet?]
  | cons p rest ih =>
    obtain ⟨k', v'⟩ := p
    constructor
    · intro h v hv
      unfold dictGet? at h
      cases hr : dictGet? rest k with
      | some v2 =>
        simp only [hr] at h
        exact absurd h (by simp)
      | none =>
        simp only [hr] at h
        rcases List.mem_cons.mp hv with hv | hv
        · cases hv
          simp at h
        · exact (ih.mp hr) v hv
    · intro h
      unfold dictGet?
      cases hr : dictGet? rest k with
      | some v2 =>
        exfalso
        have hn : dictGet? rest k = none :=
          ih.mpr (fun v hv => h v (List.mem_cons_of_mem _ hv))
        rw [hr] at hn
        exact absurd hn (by simp)
      | none =>
        have hk : k' ≠ k := by
          intro hk
          exact h v' (by rw [hk]; exact List.mem_cons_self _ _)
        simp only [hr, if_neg hk]

/-- Membership in the label table is exactly a `LabelLine` of the program. -/
theorem mem_labelTable {parsed : List Line} {s : String} {a : Int} :
    (s, a) ∈ labelTable parsed ↔ Line.label a s ∈ parsed := by
  unfold labelTable
  rw [List.mem_filterMap]
  constructor
  · rintro ⟨l, hl, hf⟩
    cases l <;> simp_all
  · intro h
    exact ⟨Line.label a s, h, rfl⟩

/-- The only labels among a line's padded words are instruction
arguments. -/
theorem lbl_mem_paddedWords {l : Line} {s : String} :
    Word.lbl s ∈ paddedWords l ↔
      ∃ a i args, l = Line.instruction a i args ∧ Word.lbl s ∈ args := by
  cases l with
  | empty a => simp [paddedWords, producedWords, List.mem_replicate]
  | offset a o => simp [paddedWords, producedWords, List.mem_replicate]
  | label a lb => simp [paddedWords, producedWords, List.mem_replicate]
  | value a v => simp [paddedWords, producedWords, List.mem_replicate]
  | instruction a i args =>
    simp only [paddedWords, producedWords, List.mem_append, List.mem_cons,
      List.mem_replicate]
    constructor
    · rintro (⟨h | h⟩ | ⟨_, h⟩)
      · exact absurd h (by simp)
      · exact ⟨a, i, args, rfl, h⟩
      · exact absurd h (by simp)
    · rintro ⟨a', i', args', heq, hmem⟩
      injection heq with h1 h2 h3
      subst h2; subst h3
      exact Or.inl (Or.inr hmem)

/-- On a well-formed line `produce_bytes_padded` succeeds with the padded
word list. -/
theorem produce_ok {l : Line} (h : lineWF l) :
    produce_bytes_padded l = .ok (paddedWords l) := by
  unfold produce_bytes_padded
  rw [if_neg]
  exact not_lt.mpr h

/-- Resolution of a word list succeeds when every label it contains is
bound. -/
theorem resolveWords_ok {t : List (String × Int)} :
    ∀ {ws : List Word}, (∀ s, Word.lbl s ∈ ws → dictGet? t s ≠ none) →
    ∃ out, resolveWords t ws = .ok out := by
  intro ws
  induction ws with
  | nil => intro _; exact ⟨[], rfl⟩
  | cons w rest ih =>
    intro h
    have hw : ∃ r, resolveWord t w = .ok r := by
      cases w with
      | lbl s =>
        cases hg : dictGet? t s with
        | none => exact absurd hg (h s (by simp))
        | some a => exact ⟨.addr a, by simp [resolveWord, hg]⟩
      | instr i => exact ⟨.instr i, rfl⟩
      | num v => exact ⟨.num v, rfl⟩
      | addr v => exact ⟨.addr v, rfl⟩
    obtain ⟨r, hr⟩ := hw
    obtain ⟨out, hout⟩ := ih (fun s hs => h s (List.mem_cons_of_mem _ hs))
    exact ⟨r :: out, by unfold resolveWords; rw [hr, hout]⟩

/-- Resolution of a word list raises `KeyError` when some label in it is
unbound. -/
theorem resolveWords_keyError {t : List (String × Int)} :
    ∀ {ws : List Word}, (∃ s, Word.lbl s ∈ ws ∧ dictGet? t s = none) →
    resolveWords t ws = .error .keyError := by
  intro ws
  induction ws with
  | nil => rintro ⟨s, hs, _⟩; exact absurd hs (by simp)
  | cons w rest ih =>
    rintro ⟨s, hs, hg⟩
    rcases List.mem_cons.mp hs with hs | hs
    · subst hs
      simp only [resolveWords, resolveWord, hg]
    · by_cases hw : ∃ r, resolveWord t w = .ok r
      · obtain ⟨r, hr⟩ := hw
        have := ih ⟨s, hs, hg⟩
        simp only [resolveWords, hr, this]
      · cases w with
        | lbl s2 =>
          cases hg2 : dictGet? t s2 with
          | none => simp only [resolveWords, resolveWord, hg2]
          | some a => exact absurd ⟨.addr a, by simp [resolveWord, hg2]⟩ hw
        | instr i => exact absurd ⟨.instr i, rfl⟩ hw
        | num v => exact absurd ⟨.num v, rfl⟩ hw
        | addr v => exact absurd ⟨.addr v, rfl⟩ hw

/-- Some line of the program holds a label unbound in `t`. -/
def undefIn (t : List (String × Int)) (parsed : List Line) : Prop :=
  ∃ l ∈ parsed, ∃ s, Word.lbl s ∈ paddedWords l ∧ dictGet? t s = none

/-- Pass 2 succeeds on well-formed lines without unbound labels. -/
theorem emitLines_ok {t : List (String × Int)} :
    ∀ {parsed : List Line}, (∀ l ∈ parsed, lineWF l) → ¬ undefIn t parsed →
    ∃ out, emitLines t parsed = .ok out := by
  intro parsed
  induction parsed with
  | nil => intro _ _; exact ⟨[], rfl⟩
  | cons l rest ih =>
    intro hwf hu
    have hres : ∃ rs, resolveWords t (paddedWords l) = .ok rs := by
      apply resolveWords_ok
      intro s hs hg
      exact hu ⟨l, by simp, s, hs, hg⟩
    obtain ⟨rs, hrs⟩ := hres
    obtain ⟨more, hmore⟩ := ih (fun x hx => hwf x (List.mem_cons_of_mem _ hx))
      (fun ⟨x, hx, s, hx2⟩ => hu ⟨x, List.mem_cons_of_mem _ hx, s, hx2⟩)
    refine ⟨rs ++ more, ?_⟩
    simp only [emitLines, produce_ok (hwf l (by simp)), hrs, hmore]

/-- Pass 2 raises `KeyError` on well-formed lines as soon as some line
holds an unbound label. -/
theorem emitLines_keyError {t : List (String × Int)} :
    ∀ {parsed : List Line}, (∀ l ∈ parsed, lineWF l) → undefIn t parsed →
    emitLines t parsed = .error .keyError := by
  intro parsed
  induction parsed with
  | nil => rintro _ ⟨l, hl, _⟩; exact absurd hl (by simp)
  | cons l rest ih =>
    rintro hwf ⟨x, hx, s, hs, hg⟩
    by_cases hhead : ∃ s2, Word.lbl s2 ∈ paddedWords l ∧ dictGet? t s2 = none
    · have := resolveWords_keyError (t := t) hhead
      simp only [emitLines, produce_ok (hwf l (by simp)), this]
    · have hres : ∃ rs, resolveWords t (paddedWords l) = .ok rs := by
        apply resolveWords_ok
        intro s2 hs2 hg2
        exact hhead ⟨s2, hs2, hg2⟩
      obtain ⟨rs, hrs⟩ := hres
      have hxr : x ∈ rest := by
        rcases List.mem_cons.mp hx with hx | hx
        · subst hx; exact absurd ⟨s, hs, hg⟩ hhead
        · exact hx
      have := ih (fun y hy => hwf y (List.mem_cons_of_mem _ hy)) ⟨x, hxr, s, hs, hg⟩
      simp only [emitLines, produce_ok (hwf l (by simp)), hrs, this]

/-! ### Lemmas about numeric literals -/

/-- A full hex literal in particular prefix-matches the hex pattern. -/
theorem fullHex_hexPrefix {l : List Char} (h : isFullHex l = true) :
    hexPrefixMatch l = true := by
  unfold isFullHex at h
  split at h
  · rename_i ds heq
    unfold hexPrefixMatch
    rw [heq]
    cases ds with
    | nil => simp at h
    | cons c r =>
      simp only [Bool.and_eq_true, List.all_cons] at h
      exact h.2.1
  · exact absurd h (by simp)

/-- A full decimal literal never prefix-matches the hex pattern (its digits
cannot contain the letter `x`). -/
theorem fullDec_not_hexPrefix {l : List Char} (h : isFullDec l = true) :
    hexPrefixMatch l = false := by
  unfold isFullDec at h
  simp only [Bool.and_eq_true] at h
  unfold hexPrefixMatch
  split
  · rename_i c rest heq
    exfalso
    have := h.2
    rw [heq] at this
    simp only [List.all_cons, Bool.and_eq_true] at this
    have hx : isDigit10 'x' = true := this.2.1
    exact absurd hx (by decide)
  · rfl

/-- A full decimal literal prefix-matches the decimal pattern. -/
theorem fullDec_decPrefix {l : List Char} (h : isFullDec l = true) :
    decPrefixMatch l = true := by
  unfold isFullDec at h
  simp only [Bool.and_eq_true] at h
  unfold decPrefixMatch
  split
  · rename_i c rest heq
    have := h.2
    rw [heq] at this
    simp only [List.all_cons, Bool.and_eq_true] at this
    exact this.1
  · rename_i heq
    rw [heq] at h
    simp at h

/-- On a whole-string literal, `parse_number` reduces to the range check of
`int_to_native_number` at the literal's value. -/
theorem parse_number_on_lit {cfg : Cfg} {s : String} {v : Int}
    (h : litValue? s = some v) :
    parse_number cfg s = int_to_native_number cfg v := by
  unfold litValue? at h
  by_cases hfx : isFullHex s.data = true
  · rw [if_pos hfx] at h
    have hpx := fullHex_hexPrefix hfx
    simp [parse_number, hpx, h]
  · rw [if_neg hfx] at h
    by_cases hfd : isFullDec s.data = true
    · rw [if_pos hfd] at h
      have hnx := fullDec_not_hexPrefix hfd
      have hdp := fullDec_decPrefix hfd
      simp [parse_number, hnx, numPrefixMatch, hdp, h]
    · rw [if_neg hfd] at h
      exact absurd h (by simp)

/-- On a whole-string literal, `parse_address_literal` reduces to the range
check of `int_to_address` at the literal's value. -/
theorem parse_address_literal_on_lit {cfg : Cfg} {s : String} {v : Int}
    (h : litValue? s = some v) :
    parse_address_literal cfg s = int_to_address cfg v := by
  unfold litValue? at h
  by_cases hfx : isFullHex s.data = true
  · rw [if_pos hfx] at h
    have hpx := fullHex_hexPrefix hfx
    simp [parse_address_literal, hpx, h]
  · rw [if_neg hfx] at h
    by_cases hfd : isFullDec s.data = true
    · rw [if_pos hfd] at h
      have hnx := fullDec_not_hexPrefix hfd
      have hdp := fullDec_decPrefix hfd
      simp [parse_address_literal, hnx, numPrefixMatch, hdp, h]
    · rw [if_neg hfd] at h
      exact absurd h (by simp)

/-- `undefIn` over the program's own label table is exactly the existence of
an instruction argument referencing a label with no `LabelLine`. -/
theorem undefIn_iff_hasUndefinedRef {parsed : List Line} :
    undefIn (labelTable parsed) parsed ↔ hasUndefinedRef parsed := by
  unfold undefIn hasUndefinedRef
  constructor
  · rintro ⟨l, hl, s, hs, hg⟩
    obtain ⟨a, i, args, heq, hmem⟩ := lbl_mem_paddedWords.mp hs
    refine ⟨l, hl, a, i, args, heq, s, hmem, ?_⟩
    intro a2 hmem2
    exact absurd (mem_labelTable.mpr hmem2) (by
      have := dictGet?_eq_none.mp hg
      exact this a2)
  · rintro ⟨l, hl, a, i, args, heq, s, hmem, hnolbl⟩
    refine ⟨l, hl, s, lbl_mem_paddedWords.mpr ⟨a, i, args, heq, hmem⟩, ?_⟩
    apply dictGet?_eq_none.mpr
    intro v hv
    exact hnolbl v (mem_labelTable.mp hv)

/-! ### The claims -/

/-- C1, counterexample: the claimed source text `"foo:\n  ADD foo 0\n"` does
not compile — a bare identifier is not in `ADDRESS_PATTERN`'s language
(which demands the trailing colon of `LABEL_PATTERN`), so line 2 matches no
line pattern and compilation fails with `InvalidSyntax` on line 2 instead
of producing `[ADD, Address(0), Address(0)]`. -/
theorem c1_counterexample :
    compile cfgStd "foo:\n  ADD foo 0\n"
      = .error (.compilation "Line 2: Invalid syntax") := by rfl

/-- C1, amended: with the colon-suffixed token `foo:` in argument position,
`"foo:\n  ADD foo: 0\n"` compiles to exactly `[ADD, Address(0),
Address(0)]`, the label resolving to address 0. -/
theorem c1_theorem :
    compile cfgStd "foo:\n  ADD foo: 0\n"
      = .ok [Word.instr "ADD", Word.addr 0, Word.addr 0] := by rfl

/-- C2 (code bug): the active `compile` builds its label table with a plain
dict comprehension and never checks for duplicates, so the program
`"a:\na:\n"` — two `LabelLine`s sharing the identifier `a:` — compiles
without any `DuplicateLabel` error, silently overwriting the earlier
binding (contrast the commented-out earlier `compile`, which raised
`Label … duplicated`). -/
theorem c2_theorem :
    parse cfgStd "a:\na:\n"
        = .ok [Line.label 0 "a:", Line.label 0 "a:", Line.empty 0] ∧
      compile cfgStd "a:\na:\n" = .ok [] := ⟨by rfl, by rfl⟩

/-- C3, counterexample: an instruction argument referencing the absent
label `y:` makes `compile` fail with Python's built-in `KeyError` (the bare
dict lookup in `resolve`), not with a `CompilationError` of any kind. -/
theorem c3_counterexample :
    compile cfgStd "ADD y: 0" = .error .keyError ∧
      ∀ msg, compile cfgStd "ADD y: 0" ≠ .error (.compilation msg) := by
  constructor
  · rfl
  · intro msg h
    rw [show compile cfgStd "ADD y: 0" = .error .keyError from rfl] at h
    exact absurd h (by simp)

/-- C3, amended: for every program that parses, `compile` fails with the
uncaught built-in `KeyError` (not a `CompilationError`) iff some
`InstructionLine` argument references a label for which no `LabelLine`
exists; and resolution passes every non-label word through unchanged. -/
theorem c3_theorem (cfg : Cfg) (src : String) (parsed : List Line)
    (h : parse cfg src = .ok parsed) :
    (compile cfg src = .error .keyError ↔ hasUndefinedRef parsed) ∧
    ∀ (t : List (String × Int)) (w : Word), (∀ s, w ≠ Word.lbl s) →
      resolveWord t w = .ok w := by
  have hwf : ∀ l ∈ parsed, lineWF l := (parseFrom_ok cfg _ _ _ _ h).2
  have hcomp : compile cfg src = emitLines (labelTable parsed) parsed := by
    simp [compile, h, compileParsed]
  constructor
  · constructor
    · intro hk
      by_contra hnud
      have hnu : ¬ undefIn (labelTable parsed) parsed := fun hu =>
        hnud (undefIn_iff_hasUndefinedRef.mp hu)
      obtain ⟨out, hout⟩ := emitLines_ok hwf hnu
      rw [hcomp, hout] at hk
      exact absurd hk (by simp)
    · intro hud
      rw [hcomp]
      exact emitLines_keyError hwf (undefIn_iff_hasUndefinedRef.mpr hud)
  · intro t w hw
    cases w with
    | instr i => rfl
    | num v => rfl
    | addr v => rfl
    | lbl s => exact absurd rfl (hw s)

/-- C3, witness: the amended equivalence instantiated at a concrete
program with an unresolvable instruction argument. -/
theorem c3_witness :
    compile cfgStd "ADD w1: 0" = .error .keyError ↔
      hasUndefinedRef [Line.instruction 0 "ADD" [Word.lbl "w1:", Word.addr 0]] :=
  (c3_theorem cfgStd "ADD w1: 0"
    [Line.instruction 0 "ADD" [Word.lbl "w1:", Word.addr 0]] (by rfl)).1

/-- C4: for every successfully parsed program, the first line's address is
0 and each following line's address is the previous line's address plus
its padded word count. -/
theorem c4_theorem (cfg : Cfg) (ls : List String) (lines : List Line)
    (h : parseLines cfg ls = .ok lines) :
    (∀ hne : lines ≠ [], (lines.head hne).address = 0) ∧
    ∀ (i : Nat) (hi : i + 1 < lines.length),
      (lines.get ⟨i + 1, hi⟩).address
        = (lines.get ⟨i, Nat.lt_of_succ_lt hi⟩).address
          + paddedCount (lines.get ⟨i, Nat.lt_of_succ_lt hi⟩) := by
  have hch := (parseFrom_ok cfg ls 1 0 lines h).1
  constructor
  · intro hne
    cases lines with
    | nil => exact absurd rfl hne
    | cons l rest => exact addrChain_head hch
  · exact addrChain_get lines 0 hch

/-- C4, witness: the address invariant instantiated on `["5", "Offset 3"]`,
whose offset line sits at the cumulative address 1. -/
theorem c4_witness :
    parseLines cfgStd ["5", "Offset 3"] = .ok [Line.value 0 5, Line.offset 1 3] ∧
    ([Line.value 0 5, Line.offset 1 3].get ⟨1, by decide⟩).address
      = ([Line.value 0 5, Line.offset 1 3].get ⟨0, by decide⟩).address
        + paddedCount ([Line.value 0 5, Line.offset 1 3].get ⟨0, by decide⟩) := by
  refine ⟨by rfl, ?_⟩
  exact (c4_theorem cfgStd ["5", "Offset 3"]
    [Line.value 0 5, Line.offset 1 3] (by rfl)).2 0 (by decide)

/-- C5: the five line patterns are tried in the fixed order `EmptyLine`,
`OffsetLine`, `ValueLine`, `InstructionLine`, `LabelLine` — the classifier
returns the first match — and when none matches, parsing that line fails
with `InvalidSyntax` carrying the 1-based line number (`parseLines` starts
the counter at 1). -/
theorem c5_theorem (cfg : Cfg) (s : String) :
    (∀ (j : Nat) (hj : j < lineClasses.length) (g : List String),
        (lineClasses.get ⟨j, hj⟩).matchLine cfg s = some g →
        (∀ (k : Nat) (hk : k < lineClasses.length), k < j →
          (lineClasses.get ⟨k, hk⟩).matchLine cfg s = none) →
        classifyLine cfg s = some (lineClasses.get ⟨j, hj⟩, g)) ∧
    ((∀ (k : Nat) (hk : k < lineClasses.length),
        (lineClasses.get ⟨k, hk⟩).matchLine cfg s = none) →
      ∀ (n : Nat) (a : Int) (rest : List String),
        parseFrom cfg n a (s :: rest)
          = .error (.compilation s!"Line {n}: Invalid syntax")) := by
  constructor
  · intro j hj g hm hnone
    have hj5 : j < 5 := hj
    have hcl := classifyLine_eq cfg s
    interval_cases j
    · have hm' : emptyMatch cfg s = some g := hm
      simp only [hm'] at hcl
      exact hcl
    · have h0 : emptyMatch cfg s = none := hnone 0 (by decide) (by omega)
      have hm' : offsetMatch cfg s = some g := hm
      simp only [h0, hm'] at hcl
      exact hcl
    · have h0 : emptyMatch cfg s = none := hnone 0 (by decide) (by omega)
      have h1 : offsetMatch cfg s = none := hnone 1 (by decide) (by omega)
      have hm' : valueMatch cfg s = some g := hm
      simp only [h0, h1, hm'] at hcl
      exact hcl
    · have h0 : emptyMatch cfg s = none := hnone 0 (by decide) (by omega)
      have h1 : offsetMatch cfg s = none := hnone 1 (by decide) (by omega)
      have h2 : valueMatch cfg s = none := hnone 2 (by decide) (by omega)
      have hm' : instrMatch cfg s = some g := hm
      simp only [h0, h1, h2, hm'] at hcl
      exact hcl
    · have h0 : emptyMatch cfg s = none := hnone 0 (by decide) (by omega)
      have h1 : offsetMatch cfg s = none := hnone 1 (by decide) (by omega)
      have h2 : valueMatch cfg s = none := hnone 2 (by decide) (by omega)
      have h3 : instrMatch cfg s = none := hnone 3 (by decide) (by omega)
      have hm' : labelMatch cfg s = some g := hm
      simp only [h0, h1, h2, h3, hm'] at hcl
      exact hcl
  · intro hnone n a rest
    have h0 : emptyMatch cfg s = none := hnone 0 (by decide)
    have h1 : offsetMatch cfg s = none := hnone 1 (by decide)
    have h2 : valueMatch cfg s = none := hnone 2 (by decide)
    have h3 : instrMatch cfg s = none := hnone 3 (by decide)
    have h4 : labelMatch cfg s = none := hnone 4 (by decide)
    have hcl := classifyLine_eq cfg s
    simp only [h0, h1, h2, h3, h4] at hcl
    have hc : constructLine cfg a s = .error (.compilation "Invalid syntax") := by
      unfold constructLine
      rw [hcl]
    unfold parseFrom
    simp only [hc]
    simp only [wrapLine, Except.error.injEq, Err.compilation.injEq]
    conv_lhs => rw [String.append_assoc, String.append_assoc]
    rfl

/-- C5, witness: `"5"` is classified as a `ValueLine` (index 2, the two
earlier patterns failing), and the unclassifiable line `"?"` fails with
`InvalidSyntax` on line 1. -/
theorem c5_witness :
    classifyLine cfgStd "5" = some (lineClasses.get ⟨2, by decide⟩, ["5"]) ∧
    parseFrom cfgStd 1 0 ["?"] = .error (.compilation "Line 1: Invalid syntax") := by
  constructor
  · refine (c5_theorem cfgStd "5").1 2 (by decide) ["5"] (by decide) ?_
    intro k hk hkj
    rcases k with _ | _ | k
    · exact (by decide :
        (lineClasses.get ⟨0, by decide⟩).matchLine cfgStd "5" = none)
    · exact (by decide :
        (lineClasses.get ⟨1, by decide⟩).matchLine cfgStd "5" = none)
    · omega
  · refine (c5_theorem cfgStd "?").2 ?_ 1 0 []
    intro k hk
    rcases k with _ | _ | _ | _ | _ | k
    · exact (by decide :
        (lineClasses.get ⟨0, by decide⟩).matchLine cfgStd "?" = none)
    · exact (by decide :
        (lineClasses.get ⟨1, by decide⟩).matchLine cfgStd "?" = none)
    · exact (by decide :
        (lineClasses.get ⟨2, by decide⟩).matchLine cfgStd "?" = none)
    · exact (by decide :
        (lineClasses.get ⟨3, by decide⟩).matchLine cfgStd "?" = none)
    · exact (by decide :
        (lineClasses.get ⟨4, by decide⟩).matchLine cfgStd "?" = none)
    · have h5 : lineClasses.length = 5 := rfl
      rw [h5] at hk
      omega

/-- C6: `"5\nOffset 3\n7\n"` compiles to exactly `[5, 0, 0, 7]` — the value
5 at address 0, two zero padding words from the offset directive, and the
value 7 at address 3. -/
theorem c6_theorem :
    compile cfgStd "5\nOffset 3\n7\n"
      = .ok [Word.num 5, Word.num 0, Word.num 0, Word.num 7] := by rfl

/-- C7: a whole-string (optionally signed) decimal or hex literal of value
`v` parses to exactly `v` when `v` is representable, and fails with the
out-of-range `CompilationError` when `v` is one past either boundary of
the respective range — for `parse_number` against the native range and for
`parse_address_literal` against the address range. -/
theorem c7_theorem (cfg : Cfg) (s : String) (v : Int)
    (h : litValue? s = some v) :
    (numInRange cfg v = true → parse_number cfg s = .ok v) ∧
    (v = cfg.numHi + 1 ∨ v = cfg.numLo - 1 →
      parse_number cfg s = .error (.compilation s!"Value {v} is out of range")) ∧
    (addrInRange cfg v = true → parse_address_literal cfg s = .ok v) ∧
    (v = cfg.addrHi + 1 ∨ v = cfg.addrLo - 1 →
      parse_address_literal cfg s
        = .error (.compilation s!"Value {v} is out of range")) := by
  have hn := @parse_number_on_lit cfg s v h
  have ha := @parse_address_literal_on_lit cfg s v h
  refine ⟨?_, ?_, ?_, ?_⟩
  · intro hin
    rw [hn]
    simp [int_to_native_number, hin]
  · intro hb
    have hout : ¬ (numInRange cfg v = true) := by
      simp only [numInRange, Bool.and_eq_true, decide_eq_true_eq]
      rcases hb with hb | hb <;> subst hb <;> omega
    rw [hn]
    simp [int_to_native_number, hout]
  · intro hin
    rw [ha]
    simp [int_to_address, hin]
  · intro hb
    have hout : ¬ (addrInRange cfg v = true) := by
      simp only [addrInRange, Bool.and_eq_true, decide_eq_true_eq]
      rcases hb with hb | hb <;> subst hb <;> omega
    rw [ha]
    simp [int_to_address, hout]

/-- C7, witness: the round trip at the literal `"5"` in range, and the
out-of-range failures one past each boundary of the standard 16-bit
configuration. -/
theorem c7_witness :
    parse_number cfgStd "5" = .ok 5 ∧
    parse_number cfgStd "32768" = .error (.compilation "Value 32768 is out of range") ∧
    parse_number cfgStd "-32769" = .error (.compilation "Value -32769 is out of range") ∧
    parse_address_literal cfgStd "65536"
      = .error (.compilation "Value 65536 is out of range") ∧
    parse_address_literal cfgStd "-1"
      = .error (.compilation "Value -1 is out of range") := by
  refine ⟨?_, ?_, ?_, ?_, ?_⟩
  · exact (c7_theorem cfgStd "5" 5 (by decide)).1 (by decide)
  · exact (c7_theorem cfgStd "32768" 32768 (by decide)).2.1 (Or.inl (by decide))
  · exact (c7_theorem cfgStd "-32769" (-32769) (by decide)).2.1 (Or.inr (by decide))
  · exact (c7_theorem cfgStd "65536" 65536 (by decide)).2.2.2 (Or.inl (by decide))
  · exact (c7_theorem cfgStd "-1" (-1) (by decide)).2.2.2 (Or.inr (by decide))

/-- C8: constructing an `OffsetLine` whose parsed target is strictly below
the current address fails with the `InvalidOffset` `CompilationError`
(message `Inavalid offset … at …`, with the source's typo), a target at or
above the address is accepted, and parsing `"5\nOffset 0\n"` fails with
that error annotated `Line 2`. -/
theorem c8_theorem (cfg : Cfg) (a : Int) (s : String) (off : Int)
    (h : parse_address_literal cfg s = .ok off) :
    (off < a → offsetInit cfg a s
      = .error (.compilation s!"Inavalid offset {off} at {a}")) ∧
    (a ≤ off → offsetInit cfg a s = .ok (.offset a off)) ∧
    parse cfgStd "5\nOffset 0\n"
      = .error (.compilation "Line 2: Inavalid offset 0 at 1") := by
  refine ⟨?_, ?_, by rfl⟩
  · intro hlt
    simp only [offsetInit, h, if_pos hlt]
  · intro hge
    simp only [offsetInit, h, if_neg (not_lt.mpr hge)]

/-- C8, witness: the construction contract at offsets 0 (below address 1)
and 2 (at or above address 0). -/
theorem c8_witness :
    parse_address_literal cfgStd "0" = .ok 0 ∧
    offsetInit cfgStd 1 "0" = .error (.compilation "Inavalid offset 0 at 1") ∧
    offsetInit cfgStd 0 "2" = .ok (.offset 0 2) := by
  refine ⟨by rfl, ?_, ?_⟩
  · exact (c8_theorem cfgStd 1 "0" 0 (by rfl)).1 (by decide)
  · exact (c8_theorem cfgStd 0 "2" 2 (by rfl)).2.1 (by decide)

/-- C9, counterexample: a program with no `LabelLine` at all can still fail
during resolution — `"ADD q: 1"` parses to a single instruction line, yet
`compile` raises `KeyError` on its unresolvable label argument. -/
theorem c9_counterexample :
    parse cfgStd "ADD q: 1"
        = .ok [Line.instruction 0 "ADD" [Word.lbl "q:", Word.addr 1]] ∧
      (∀ (a : Int) (s : String),
        Line.label a s ∉ [Line.instruction 0 "ADD" [Word.lbl "q:", Word.addr 1]]) ∧
      compile cfgStd "ADD q: 1" = .error .keyError := by
  refine ⟨by rfl, ?_, by rfl⟩
  intro a s h
  simp at h

/-- C9, amended: for every program that parses successfully and whose
instruction arguments contain no label references, `compile` succeeds —
resolution never fails due to labels.  (Merely having no `LabelLine` is not
enough, see the counterexample.) -/
theorem c9_theorem (cfg : Cfg) (src : String) (parsed : List Line)
    (h : parse cfg src = .ok parsed)
    (hnoref : ∀ l ∈ parsed, ¬ hasLabelRefArg l) :
    ∃ out, compile cfg src = .ok out := by
  have hwf : ∀ l ∈ parsed, lineWF l := (parseFrom_ok cfg _ _ _ _ h).2
  have hcomp : compile cfg src = emitLines (labelTable parsed) parsed := by
    simp [compile, h, compileParsed]
  have hnud : ¬ undefIn (labelTable parsed) parsed := by
    rintro ⟨l, hl, s, hs, _⟩
    obtain ⟨a, i, args, heq, hmem⟩ := lbl_mem_paddedWords.mp hs
    exact hnoref l hl ⟨a, i, args, heq, s, hmem⟩
  obtain ⟨out, hout⟩ := emitLines_ok hwf hnud
  exact ⟨out, by rw [hcomp]; exact hout⟩

/-- C9, witness: the amended statement instantiated at the label-free
program `"5"`. -/
theorem c9_witness : ∃ out, compile cfgStd "5" = .ok out := by
  apply c9_theorem cfgStd "5" [Line.value 0 5] (by rfl)
  intro l hl href
  rcases href with ⟨a, i, args, heq, _⟩
  rcases List.mem_singleton.mp hl with h2
  rw [h2] at heq
  exact absurd heq (by simp)

/-- C10: on inputs whose prefix matches the number grammar but whose tail
does not (`"0xg"`: decimal prefix `0`; `"123abc"`: decimal prefix `123`),
the unanchored `re.match` succeeds and `int()` then raises the built-in
`ValueError` — not a `CompilationError` — from both `parse_number` and
`parse_address_literal`. -/
theorem c10_theorem :
    numPrefixMatch "0xg".data = true ∧ isFullNum "0xg".data = false ∧
    numPrefixMatch "123abc".data = true ∧ isFullNum "123abc".data = false ∧
    parse_number cfgStd "0xg" = .error .valueError ∧
    parse_address_literal cfgStd "0xg" = .error .valueError ∧
    parse_number cfgStd "123abc" = .error .valueError ∧
    parse_address_literal cfgStd "123abc" = .error .valueError := by
  refine ⟨by rfl, by rfl, by rfl, by rfl, by rfl, by rfl, by rfl, by rfl⟩

end CrashVM
